import Mathlib

/-!
Verification of the CBA statement-conversion engine: a shallow embedding of
`cbalib.py`, `cba-pdf-to-csv.py` (account-style statements) and
`cba-mc-pdf-to-csv.py` (card-style statements), together with theorems about
amount parsing, row normalization, the table scanners, year resolution and
balance validation.

Conventions of the embedding:

* Python `decimal.Decimal` values are modelled as `ℚ`.  `Decimal` arithmetic
  on the finite values the programs handle is exact, and `==`/`!=` on
  `Decimal` is numeric equality, so `ℚ` preserves every comparison the code
  performs.  The non-finite special values of the `Decimal` constructor
  (`NaN`, `Infinity`, `sNaN`) are not modelled; no program path or claim
  depends on them.

* Fallible Python code is modelled with `Option` and `Except Err`: failed
  `assert` statements, `ValueError` from `int`/`Decimal`/`list.index`,
  `TypeError`/`AttributeError`/`IndexError` from applying string operations
  to `None`/float cells, all become errors.  The `Err` constructors follow
  the specification's error taxonomy: the balance checks of the validators
  (running-balance check, closing-record check, final closing-marker check)
  map to `Err.balanceMismatch`, which is exactly the set of checks the
  specification files under *BalanceMismatch*.

* String primitives are re-implemented structurally over `List Char`
  (Python strings index by character, like `String.data`), so that all
  definitions evaluate by kernel reduction on concrete inputs.

* An extracted table cell (`PCell`) is a string or a float; for floats only
  NaN-ness is relevant (the code only ever asks `isinstance(x, float) and
  math.isnan(x)` of a float cell before any use), so a float cell carries
  just its NaN flag.  `NCell` is a cell after row normalization, with `none`
  as the explicit empty marker.
-/

set_option maxRecDepth 100000

/-! ## String primitives (by character, as in Python) -/

/-- Python `s.endswith(t)`. -/
def strEndsWith (s t : String) : Bool :=
  List.isSuffixOf t.data s.data

/-- Python `s.startswith(t)`. -/
def strStartsWith (s t : String) : Bool :=
  List.isPrefixOf t.data s.data

/-- Python `s[:-n]` for `0 < n ≤ len(s)` (drop the last `n` characters). -/
def strDropRight (s : String) (n : Nat) : String :=
  ⟨s.data.take (s.data.length - n)⟩

/-- Python `s[n:]`. -/
def strDrop (s : String) (n : Nat) : String :=
  ⟨s.data.drop n⟩

/-- Python `s[:n]`. -/
def strTake (s : String) (n : Nat) : String :=
  ⟨s.data.take n⟩

/-- Python `len(s)` (character count). -/
def strLen (s : String) : Nat :=
  s.data.length

/-- Python `s.replace(" ", "")`. -/
def stripSpaces (s : String) : String :=
  ⟨s.data.filter (fun c => c ≠ ' ')⟩

/-- Python `s.split(" ")`: split at every single space, keeping empty
pieces. -/
def chSplitOnSpace : List Char → List (List Char)
  | [] => [[]]
  | c :: rest =>
    let r := chSplitOnSpace rest
    if c = ' ' then [] :: r
    else
      match r with
      | h :: t => (c :: h) :: t
      | [] => [[c]]

/-- `list.index` on a string table, as `Option`. -/
def strIndexOf? : List String → String → Option Nat
  | [], _ => none
  | a :: l, x => if a = x then some 0 else (strIndexOf? l x).map (fun n => n + 1)

/-- `"".join(l)`. -/
def concatAll : List String → String
  | [] => ""
  | s :: r => s ++ concatAll r

/-- `"\n".join(l)`. -/
def joinNl : List String → String
  | [] => ""
  | [s] => s
  | s :: r => s ++ "\n" ++ joinNl r

/-- Strip leading and trailing whitespace. -/
def chTrim (cs : List Char) : List Char :=
  ((cs.dropWhile Char.isWhitespace).reverse.dropWhile Char.isWhitespace).reverse

/-! ## Cells -/

/-- An extracted table cell as delivered by the upstream extractor: either a
string or a float.  The `Bool` of `pfloat` records whether the float is NaN,
the only property of a float the code ever inspects. -/
inductive PCell where
  | pstr : String → PCell
  | pfloat : Bool → PCell
  deriving DecidableEq

/-- A normalized cell: `none` is the explicit empty marker. -/
abbrev NCell := Option PCell

/-- Row Normalizer, from `(x if not isinstance(x, float) or not math.isnan(x)
else None)` in both `parse_txns_from_df` functions: a float NaN cell becomes
the empty marker, every other cell passes through unchanged. -/
def normalize_cell (x : PCell) : NCell :=
  match x with
  | .pfloat true => none
  | c => some c

/-- Whether a normalized cell is a string cell or the empty marker. -/
def isStrOrEmpty (c : NCell) : Bool :=
  match c with
  | none => true
  | some (.pstr _) => true
  | some (.pfloat _) => false

/-- The string of a normalized cell, if it is a string cell. -/
def cellStr? (c : NCell) : Option String :=
  match c with
  | some (.pstr s) => some s
  | _ => none

/-- All cells as strings (Python `all(isinstance(x, str) for x in ...)`
followed by using them as strings), or `none` if any cell is empty or a
float. -/
def strsOf : List NCell → Option (List String)
  | [] => some []
  | c :: l =>
    match cellStr? c, strsOf l with
    | some s, some r => some (s :: r)
    | _, _ => none

/-- Error kinds, following the specification's taxonomy.  `cellType` stands
for the `TypeError`/`AttributeError`/`IndexError` raised when a cell of the
wrong shape (empty / float / empty string) meets a string operation. -/
inductive Err where
  | cellType
  | formatViolation
  | amountFormat
  | dateFormat
  | balanceMismatch
  deriving DecidableEq

/-! ## `cbalib.py` -/

/-- `list(calendar.month_abbr)`: index 0 is the empty string. -/
def month_abbr : List String :=
  ["", "Jan", "Feb", "Mar", "Apr", "May", "Jun", "Jul", "Aug", "Sep", "Oct",
   "Nov", "Dec"]

/-- Digit-string value, most significant digit first. -/
def digitsVal (cs : List Char) : Nat :=
  cs.foldl (fun a c => a * 10 + (c.toNat - 48)) 0

def allDigits (cs : List Char) : Bool :=
  cs.all Char.isDigit

/-- `cbalib.parse_dd_mmm`: split on single spaces into exactly two parts,
require the day to be a two-character digit string, look the month up in
`month_abbr`.  Returns `(month, day)`; `none` models the `assert` /
`ValueError` failures. -/
def parse_dd_mmm (s : String) : Option (Nat × Nat) :=
  match chSplitOnSpace s.data with
  | [rawDay, rawMonth] =>
    if rawDay.length = 2 ∧ allDigits rawDay then
      (strIndexOf? month_abbr ⟨rawMonth⟩).map (fun month => (month, digitsVal rawDay))
    else none
  | _ => none

/-- Python `int(s)`: optional sign then a nonempty digit run.  (Surrounding
whitespace and underscores, which `int` also accepts, never occur in the
parsed fields.) -/
def chToInt? (cs : List Char) : Option Int :=
  match cs with
  | '+' :: r => if r ≠ [] ∧ allDigits r then some (digitsVal r) else none
  | '-' :: r => if r ≠ [] ∧ allDigits r then some (-(digitsVal r : Int)) else none
  | r => if r ≠ [] ∧ allDigits r then some (digitsVal r) else none

/-- Mantissa of a Python decimal numeric string: `digits [. digits]` with at
least one digit overall (so `"5."` and `".5"` are accepted, `"."` is not). -/
def parseMantissa (cs : List Char) : Option ℚ :=
  let ip := cs.takeWhile Char.isDigit
  let rest := cs.dropWhile Char.isDigit
  match rest with
  | [] => if ip ≠ [] then some (digitsVal ip) else none
  | '.' :: fp =>
    if allDigits fp ∧ (ip ≠ [] ∨ fp ≠ []) then
      some ((digitsVal ip : ℚ) + (digitsVal fp : ℚ) / (10 : ℚ) ^ fp.length)
    else none
  | _ => none

/-- The `decimal.Decimal` string constructor restricted to finite numeric
strings: strip surrounding whitespace, delete underscores, then
`sign? mantissa ([eE] sign? digits)?`.  (`NaN`/`Infinity` inputs are not
modelled; the programs never construct them.) -/
def pyDecimal? (s : String) : Option ℚ :=
  let cs := (chTrim s.data).filter (fun c => c ≠ '_')
  let signAndRest : ℚ × List Char :=
    match cs with
    | '+' :: r => (1, r)
    | '-' :: r => (-1, r)
    | r => (1, r)
  let mant := signAndRest.2.takeWhile (fun c => !(c == 'e' || c == 'E'))
  let rest := signAndRest.2.dropWhile (fun c => !(c == 'e' || c == 'E'))
  match parseMantissa mant with
  | none => none
  | some m =>
    match rest with
    | [] => some (signAndRest.1 * m)
    | _ :: expcs =>
      (chToInt? expcs).map (fun e => signAndRest.1 * m * (10 : ℚ) ^ e)

/-- `cbalib.parse_amount`, argument order `s leading_dollar allow_negative
negative_trailing cr_dr`.  `none` models every failure: the two flag
exclusivity asserts, a missing required `" CR"`/`" DR"` or `"$"` marker, the
`IndexError` of `s[0]`/`s[-1]` on an empty string, and an unparsable decimal
remainder. -/
def parse_amount (s : String) (leading_dollar allow_negative negative_trailing
    cr_dr : Bool) : Option ℚ :=
  if allow_negative && cr_dr then none
  else if negative_trailing && !allow_negative then none
  else
    let st1 : Option (ℚ × String) :=
      if cr_dr then
        if strEndsWith s " DR" then some (-1, strDropRight s 3)
        else if strEndsWith s " CR" then some (1, strDropRight s 3)
        else none
      else some (1, s)
    match st1 with
    | none => none
    | some p1 =>
      let st2 : Option (ℚ × String) :=
        if allow_negative then
          if negative_trailing then
            match p1.2.data.getLast? with
            | none => none
            | some c => if c = '-' then some (-1, strDropRight p1.2 1) else some p1
          else
            match p1.2.data.head? with
            | none => none
            | some c => if c = '-' then some (-1, strDrop p1.2 1) else some p1
        else some p1
      match st2 with
      | none => none
      | some p2 =>
        let st3 : Option (ℚ × String) :=
          if leading_dollar then
            match p2.2.data.head? with
            | none => none
            | some c => if c = '$' then some (p2.1, strDrop p2.2 1) else none
          else some p2
        match st3 with
        | none => none
        | some p3 =>
          (pyDecimal? ⟨p3.2.data.filter (fun c => c ≠ ',')⟩).map (fun q => p3.1 * q)

/-! ## Calendar dates (`datetime.date`) -/

structure PDate where
  year : Int
  month : Nat
  day : Nat
  deriving DecidableEq

def isLeapYear (y : Int) : Bool :=
  y % 4 == 0 && (y % 100 != 0 || y % 400 == 0)

def daysInMonth (y : Int) (m : Nat) : Nat :=
  if m = 2 then (if isLeapYear y then 29 else 28)
  else if m = 4 ∨ m = 6 ∨ m = 9 ∨ m = 11 then 30
  else 31

/-- `datetime.date(y, m, d)`: `none` models the `ValueError` on an
out-of-range year, month or day. -/
def mkDate (y : Int) (m d : Nat) : Option PDate :=
  if 1 ≤ y ∧ y ≤ 9999 ∧ 1 ≤ m ∧ m ≤ 12 ∧ 1 ≤ d ∧ d ≤ daysInMonth y m then
    some ⟨y, m, d⟩
  else none

/-- Python tuple comparison `(a1, a2) < (b1, b2)` (lexicographic). -/
def mdLt (a b : Nat × Nat) : Bool :=
  decide (a.1 < b.1) || (decide (a.1 = b.1) && decide (a.2 < b.2))


/-! ## Table scanner state machines

Both scanners consume rows whose cells have already been normalized
(`normalize_cell` is applied to every cell of every extracted row before any
other processing, per the Row Normalizer).  A step either continues with a
new state, stops (`done`, the `break` on a trailer row), or fails. -/

inductive StepRes (σ : Type) where
  | cont : σ → StepRes σ
  | done : σ → StepRes σ
  deriving DecidableEq

/-! ### Account-style scanner (`cba-pdf-to-csv.py`, 5 columns) -/

/-- One normalized 5-column row: Date, Transaction, Debit, Credit, Balance. -/
structure ARow where
  c0 : NCell
  c1 : NCell
  c2 : NCell
  c3 : NCell
  c4 : NCell
  deriving DecidableEq

/-- A merged raw transaction: date cell of the first fragment, concatenated
descriptions, debit/credit/balance cells of the last fragment. -/
structure ARawTxn where
  date : NCell
  desc : String
  debit : NCell
  credit : NCell
  balance : NCell
  deriving DecidableEq

structure AState where
  header_found : Bool
  accum : List ARow
  txns_raw : List ARawTxn
  special_lines : Nat
  deriving DecidableEq

def RAW_TRAILER : String :=
  "Opening balance - Total debits + Total credits = Closing balance"

def BALANCE_ONLY_SUFFIXES : List String :=
  [" OPENING BALANCE", "CLOSING BALANCE"]

/-- Keys of `SPECIAL_LINE_MAP`; both map to the value 2. -/
def SPECIAL_KEYS : List String :=
  ["CREDIT INTEREST EARNED on this account",
   "BONUS INTEREST EARNED on this account to"]

def endsWithAny (s : String) (l : List String) : Bool :=
  l.any (fun t => strEndsWith s t)

def startsWithAny (s : String) (l : List String) : Bool :=
  l.any (fun t => strStartsWith s t)

def acctHeaderRow : ARow :=
  ⟨some (.pstr "Date"), some (.pstr "Transaction"), some (.pstr "Debit"),
   some (.pstr "Credit"), some (.pstr "Balance")⟩

/-- The old-style page-start/page-end carried-balance artifact:
`all(isinstance(x, str) for x in bits[2:])` and the concatenation of
`bits[2:]`, spaces removed, starts with `"BALANCECARRIEDFORWARD"`. -/
def isCarriedForward (r : ARow) : Bool :=
  match strsOf [r.c2, r.c3, r.c4] with
  | some l => strStartsWith (stripSpaces (concatAll l)) "BALANCECARRIEDFORWARD"
  | none => false

/-- `isinstance(bits[1], str) and bits[1].startswith("BALANCE BROUGHT FORWARD")`. -/
def isBroughtForward (r : ARow) : Bool :=
  match r.c1 with
  | some (.pstr s) => strStartsWith s "BALANCE BROUGHT FORWARD"
  | _ => false

/-- The trailer test: `bits[0] is None`, all of `bits[1:]` strings, and their
concatenation with spaces removed equals the known trailer sentence with
spaces removed. -/
def isAcctTrailer (r : ARow) : Bool :=
  r.c0 = none &&
    (match strsOf [r.c1, r.c2, r.c3, r.c4] with
     | some l => stripSpaces (concatAll l) = stripSpaces RAW_TRAILER
     | none => false)

/-- The opening/closing-line resplit: if the description ends with a
balance-only suffix and the date cell is an 8-character string ending in
`"2"`, move the leading `"2"` of the year back from the date cell to the
description.  Also returns the (possibly updated) description string; a
non-string description cell is an `AttributeError`, a non-string date cell
under a matching description is a `TypeError` (`len(bits[0])`). -/
def acctResplit (r : ARow) : Except Err (ARow × String) :=
  match r.c1 with
  | some (.pstr s1) =>
    if endsWithAny s1 BALANCE_ONLY_SUFFIXES then
      match r.c0 with
      | some (.pstr s0) =>
        if strLen s0 = 8 ∧ strEndsWith s0 "2" then
          .ok ({ r with c0 := some (.pstr (strTake s0 6)),
                        c1 := some (.pstr ("2" ++ s1)) }, "2" ++ s1)
        else .ok (r, s1)
      | _ => .error .cellType
    else .ok (r, s1)
  | _ => .error .cellType

/-- Merge an accumulation into a raw transaction: date from the first
fragment, `"\n"`-joined descriptions, debit/credit/balance from the last
fragment. -/
def acctMergeAccum (accum : List ARow) : Except Err ARawTxn :=
  match accum.head?, accum.getLast?, strsOf (accum.map (fun r => r.c1)) with
  | some first, some last, some descs =>
    .ok ⟨first.c0, joinNl descs, last.c2, last.c3, last.c4⟩
  | _, _, _ => .error .cellType

/-- Flush the accumulation (`assert len(accum) <= 3` then append the merged
raw transaction), continuing with the given `special_lines` value. -/
def acctFlush (st : AState) (accum : List ARow) (special : Nat) :
    Except Err (StepRes AState) :=
  if accum.length ≤ 3 then
    match acctMergeAccum accum with
    | .ok t => .ok (.cont ⟨st.header_found, [], st.txns_raw ++ [t], special⟩)
    | .error e => .error e
  else .error .formatViolation

/-- One row of the account-style scanner, mirroring the body of the row loop
of `parse_txns_from_df` in `cba-pdf-to-csv.py`. -/
def acctStep (st : AState) (r : ARow) : Except Err (StepRes AState) :=
  if isCarriedForward r then .ok (.cont st)
  else if isBroughtForward r then .ok (.cont st)
  else if r = acctHeaderRow then .ok (.cont { st with header_found := true })
  else if !st.header_found then .ok (.cont st)
  else if isAcctTrailer r then .ok (.done st)
  else
    match acctResplit r with
    | .error e => .error e
    | .ok (r2, s1) =>
      if (if r2.c0 = none then st.accum ≠ [] else st.accum = []) then
        let accum2 := st.accum ++ [r2]
        let special1 := if SPECIAL_KEYS.contains s1 then 2 else st.special_lines
        if special1 ≠ 0 then
          if special1 - 1 ≠ 0 then
            .ok (.cont ⟨st.header_found, accum2, st.txns_raw, special1 - 1⟩)
          else acctFlush st accum2 (special1 - 1)
        else if r2.c4 = none then
          if r2.c2 = none ∧ r2.c3 = none then
            .ok (.cont ⟨st.header_found, accum2, st.txns_raw, special1⟩)
          else .error .formatViolation
        else acctFlush st accum2 special1
      else .error .formatViolation

/-- Run the account scanner over the rows, returning the state at loop exit
(after a trailer `break` or after the last row). -/
def acctScanRows (st : AState) : List ARow → Except Err AState
  | [] => .ok st
  | r :: rs =>
    match acctStep st r with
    | .error e => .error e
    | .ok (.done st2) => .ok st2
    | .ok (.cont st2) => acctScanRows st2 rs

/-- The post-loop `assert accum == []`. -/
def acctFinalize (st : AState) : Except Err (List ARawTxn) :=
  if st.accum = [] then .ok st.txns_raw else .error .formatViolation

def acctInit : AState := ⟨false, [], [], 0⟩

/-- Raw-transaction output of the account scanner. -/
def acctScanTxnsRaw (rows : List ARow) : Except Err (List ARawTxn) :=
  (acctScanRows acctInit rows).bind acctFinalize

/-! ### Account-style raw-transaction finishing (second loop of
`parse_txns_from_df` in `cba-pdf-to-csv.py`) -/

/-- One transaction as consumed by the account validator. -/
structure ATxn where
  md : Nat × Nat
  desc : String
  value : Option ℚ
  balance : Option ℚ
  deriving DecidableEq

/-- `is_valid_credit_prefix` applied to a (string) cell value. -/
def creditMarkOk (s : String) : Bool :=
  strLen s = 1 && (s = "-" || s = "$" || allDigits s.data)

/-- The four-way value / no-balance classification of the finishing loop
(`if desc.endswith(...) ... elif ... elif r[2] is not None ... else ...`).
Cells of the wrong type where a string is required are `cellType` errors,
failed asserts are `formatViolation`, parser failures `amountFormat`. -/
def acctValuePart (r : ARawTxn) : Except Err (Option ℚ × Bool) :=
  if endsWithAny r.desc BALANCE_ONLY_SUFFIXES then
    if r.debit = none ∧ r.credit = none then .ok (none, false)
    else .error .formatViolation
  else if startsWithAny r.desc SPECIAL_KEYS then
    if r.debit = none then
      match r.credit with
      | some (.pstr cs) =>
        if creditMarkOk cs then
          if r.balance = none then .ok (none, true)
          else .error .formatViolation
        else .error .formatViolation
      | _ => .error .cellType
    else .error .formatViolation
  else if r.debit ≠ none then
    match r.credit with
    | some (.pstr cs) =>
      if creditMarkOk cs then
        match r.debit with
        | some (.pstr dbs) =>
          match parse_amount dbs false false false false with
          | some v => .ok (some (-v), false)
          | none => .error .amountFormat
        | _ => .error .cellType
      else .error .formatViolation
    | _ => .error .cellType
  else
    match r.credit with
    | some (.pstr cs) =>
      match cs.data.head? with
      | none => .error .cellType
      | some c0 =>
        if creditMarkOk ⟨[c0]⟩ then
          match parse_amount (strDrop cs 1) false false false false with
          | some v => .ok (some v, false)
          | none => .error .amountFormat
        else .error .formatViolation
    | _ => .error .cellType

/-- The balance extraction of the finishing loop: with `no_balance` the cell
must be absent; otherwise the literal strings "Nil" and "$0.00" map directly
to `Decimal("0.00")`, and any other cell goes through `parse_amount` with
`leading_dollar` and `cr_dr`. -/
def acctBalancePart (no_balance : Bool) (cell : NCell) : Except Err (Option ℚ) :=
  if no_balance then
    if cell = none then .ok none else .error .formatViolation
  else if cell = some (.pstr "Nil") ∨ cell = some (.pstr "$0.00") then
    .ok (some 0)
  else
    match cell with
    | some (.pstr bs) =>
      match parse_amount bs true false false true with
      | some b => .ok (some b)
      | none => .error .amountFormat
    | _ => .error .cellType

/-- One raw transaction through the finishing loop of `parse_txns_from_df`
in `cba-pdf-to-csv.py`: date parse, value classification, balance
extraction. -/
def acctFinish (r : ARawTxn) : Except Err ATxn :=
  match r.date with
  | some (.pstr ds) =>
    match parse_dd_mmm ds with
    | none => .error .dateFormat
    | some md =>
      match acctValuePart r with
      | .error e => .error e
      | .ok (value, no_balance) =>
        match acctBalancePart no_balance r.balance with
        | .error e => .error e
        | .ok bal => .ok ⟨md, r.desc, value, bal⟩
  | _ => .error .cellType

/-! ### Card-style scanner (`cba-mc-pdf-to-csv.py`, 3 columns) -/

structure MRow where
  c0 : NCell
  c1 : NCell
  c2 : NCell
  deriving DecidableEq

/-- A merged raw transaction: date and amount cells from the first fragment,
concatenated descriptions. -/
structure MRawTxn where
  date : NCell
  desc : String
  amount : NCell
  deriving DecidableEq

structure MState where
  header_found : Bool
  accum : List MRow
  txns_raw : List MRawTxn
  deriving DecidableEq

def RAW_TRAILERS : List String :=
  ["How to pay Weâ€™re here to help",
   "Please check your transactions listed on this statement and report any discrepancy to the Bank before the payment due date."]

def interestPreStr : String := "Interest charged on "

def mcHeaderRow : MRow :=
  ⟨some (.pstr "Date"), some (.pstr "Transaction Details"),
   some (.pstr "Amount (A$)")⟩

/-- The trailer test: all cells strings, concatenation with spaces removed
equal to one of the known trailer sentences with spaces removed. -/
def isMcTrailer (r : MRow) : Bool :=
  match strsOf [r.c0, r.c1, r.c2] with
  | some l => RAW_TRAILERS.any (fun t => stripSpaces (concatAll l) = stripSpaces t)
  | none => false

def mcMergeAccum (accum : List MRow) : Except Err MRawTxn :=
  match accum.head?, strsOf (accum.map (fun r => r.c1)) with
  | some first, some descs => .ok ⟨first.c0, joinNl descs, first.c2⟩
  | _, _ => .error .cellType

/-- `maybe_flush_frags`: if the accumulation is nonempty,
`assert len(accum) <= 3`, merge and clear it. -/
def mcMaybeFlush (st : MState) : Except Err MState :=
  if st.accum = [] then .ok st
  else if st.accum.length ≤ 3 then
    match mcMergeAccum st.accum with
    | .ok t => .ok ⟨st.header_found, [], st.txns_raw ++ [t]⟩
    | .error e => .error e
  else .error .formatViolation

/-- One row of the card-style scanner, mirroring the body of the row loop of
`parse_txns_from_df` in `cba-mc-pdf-to-csv.py`. -/
def mcStep (st : MState) (r : MRow) : Except Err (StepRes MState) :=
  if r = mcHeaderRow then .ok (.cont { st with header_found := true })
  else if !st.header_found then .ok (.cont st)
  else if isMcTrailer r then .ok (.done st)
  else
    let startRes : Except Err Bool :=
      if r.c0 ≠ none then .ok true
      else
        match r.c1 with
        | some (.pstr s) => .ok (strStartsWith s interestPreStr)
        | _ => .error .cellType
    match startRes with
    | .error e => .error e
    | .ok true =>
      if r.c2 = none then .error .formatViolation
      else
        match mcMaybeFlush st with
        | .ok st2 => .ok (.cont ⟨st2.header_found, st2.accum ++ [r], st2.txns_raw⟩)
        | .error e => .error e
    | .ok false =>
      if r.c2 ≠ none then .error .formatViolation
      else if st.accum = [] then .error .formatViolation
      else .ok (.cont ⟨st.header_found, st.accum ++ [r], st.txns_raw⟩)

def mcScanRows (st : MState) : List MRow → Except Err MState
  | [] => .ok st
  | r :: rs =>
    match mcStep st r with
    | .error e => .error e
    | .ok (.done st2) => .ok st2
    | .ok (.cont st2) => mcScanRows st2 rs

/-- The post-loop `maybe_flush_frags()` and return of the raw list. -/
def mcFinalize (st : MState) : Except Err (List MRawTxn) :=
  (mcMaybeFlush st).map (fun st2 => st2.txns_raw)

def mcInit : MState := ⟨false, [], []⟩

def mcScanTxnsRaw (rows : List MRow) : Except Err (List MRawTxn) :=
  (mcScanRows mcInit rows).bind mcFinalize

/-! ## Validators (`validate_and_date_txns`) -/

/-- A dated, validated account-style transaction:
`(date, desc, value, balance)`. -/
abbrev DTxn := PDate × String × Option ℚ × Option ℚ

/-- Opening-line branch of the account validator: on a description ending
in " OPENING BALANCE", require no year seen yet, parse the year prefix,
require no amount, seed `last_month_day` from this record and the running
balance from this record's balance; otherwise require a year to have been
seen.  Returns the `(last_year, last_month_day, running_balance)` to use. -/
def acctOpenPhase (ly : Option Int) (lmd : Option (Nat × Nat))
    (run : Option ℚ) (t : ATxn) :
    Except Err (Option Int × Option (Nat × Nat) × Option ℚ) :=
  if strEndsWith t.desc " OPENING BALANCE" then
    match ly with
    | some _ => .error .formatViolation
    | none =>
      match chToInt? (strDropRight t.desc 16).data with
      | none => .error .dateFormat
      | some y =>
        match t.value with
        | some _ => .error .formatViolation
        | none => .ok (some y, some (t.md.1, t.md.2), t.balance)
  else
    match ly with
    | none => .error .formatViolation
    | some _ => .ok (ly, lmd, run)

/-- `running_balance += value` (adding to `None` is a `TypeError`). -/
def acctRunPhase (run1 : Option ℚ) (value : Option ℚ) :
    Except Err (Option ℚ) :=
  match value with
  | none => .ok run1
  | some v =>
    match run1 with
    | none => .error .cellType
    | some rb => .ok (some (rb + v))

/-- `if balance is not None and balance != running_balance: raise`. -/
def acctChkPhase (run2 : Option ℚ) (balance : Option ℚ) : Except Err Unit :=
  match balance with
  | some b => if run2 = some b then .ok () else .error .balanceMismatch
  | none => .ok ()

/-- Closing-line branch: on a description ending in " CLOSING BALANCE",
require the year prefix to parse and equal the current year, no amount, and
the extracted balance to equal the running balance; record that the closing
marker was observed. -/
def acctClosePhase (y2 : Int) (found : Bool) (run2 : Option ℚ) (t : ATxn) :
    Except Err Bool :=
  if strEndsWith t.desc " CLOSING BALANCE" then
    match chToInt? (strDropRight t.desc 16).data with
    | none => .error .dateFormat
    | some cy =>
      if cy = y2 then
        match t.value with
        | some _ => .error .formatViolation
        | none => if t.balance = run2 then .ok true else .error .balanceMismatch
      else .error .formatViolation
  else .ok found

/-- `assert 2000 <= last_year <= 2100` followed by `datetime.date(...)`. -/
def datePhaseV (y2 : Int) (m d : Nat) : Except Err PDate :=
  if 2000 ≤ y2 ∧ y2 ≤ 2100 then
    match mkDate y2 m d with
    | none => .error .dateFormat
    | some dt => .ok dt
  else .error .dateFormat

/-- One record of `validate_and_date_txns` in `cba-pdf-to-csv.py`: the
opening-line branch, the year-rollover comparison, the running-balance
update and check, the closing-line branch, the year sanity assert and the
date construction.  Returns the new `(last_year, last_month_day,
found_closing, running_balance)` state together with the constructed date. -/
def acctStepV (ly : Option Int) (lmd : Option (Nat × Nat)) (found : Bool)
    (run : Option ℚ) (t : ATxn) :
    Except Err (Int × (Nat × Nat) × Bool × Option ℚ × PDate) :=
  match acctOpenPhase ly lmd run t with
  | .error e => .error e
  | .ok (ly1, lmd1, run1) =>
    match ly1, lmd1 with
    | some y1, some p =>
      let y2 : Int := if mdLt (t.md.1, t.md.2) p then y1 + 1 else y1
      match acctRunPhase run1 t.value with
      | .error e => .error e
      | .ok run2 =>
        match acctChkPhase run2 t.balance with
        | .error e => .error e
        | .ok _ =>
          match acctClosePhase y2 found run2 t with
          | .error e => .error e
          | .ok found2 =>
            match datePhaseV y2 t.md.1 t.md.2 with
            | .error e => .error e
            | .ok dt => .ok (y2, (t.md.1, t.md.2), found2, run2, dt)
    | _, _ => .error .cellType

/-- The record loop of the account validator, with the final
`assert found_closing`. -/
def acctGo (ly : Option Int) (lmd : Option (Nat × Nat)) (found : Bool)
    (run : Option ℚ) (acc : List DTxn) : List ATxn → Except Err (List DTxn)
  | [] => if found then .ok acc else .error .balanceMismatch
  | t :: ts =>
    match acctStepV ly lmd found run t with
    | .error e => .error e
    | .ok (y2, md2, found2, run2, dt) =>
      acctGo (some y2) (some md2) found2 run2
        (acc ++ [(dt, t.desc, t.value, t.balance)]) ts

/-- `validate_and_date_txns` of `cba-pdf-to-csv.py`. -/
def acctValidate (txns : List ATxn) : Except Err (List DTxn) :=
  acctGo none none false none [] txns

/-- A transaction as consumed by the card-style validator. -/
structure MTxn where
  d : Option (Nat × Nat)
  desc : String
  value : ℚ
  deriving DecidableEq

/-- A dated, validated card-style transaction:
`(date, desc, -value, running_balance)`. -/
abbrev MDTxn := PDate × String × ℚ × ℚ

/-- The interest-row implicit date: `if d is None and
desc.startswith(INTEREST_PREFIX): d = closing_date`. -/
def mcResolveDate (cdate : Nat × Nat) (d : Option (Nat × Nat))
    (desc : String) : Option (Nat × Nat) :=
  if d = none ∧ strStartsWith desc interestPreStr then some cdate else d

/-- The record loop of the card-style validator, with the final
`assert closing_balance == running_balance`. -/
def mcGo (closing : ℚ) (cdate : Nat × Nat) (ly : Int)
    (lmd : Option (Nat × Nat)) (run : ℚ) (acc : List MDTxn) :
    List MTxn → Except Err (List MDTxn)
  | [] => if closing = run then .ok acc else .error .balanceMismatch
  | t :: ts =>
    match mcResolveDate cdate t.d t.desc with
    | none => .error .cellType
    | some md =>
      let p := match lmd with | none => md | some q => q
      let y2 : Int := if mdLt md p then ly + 1 else ly
      let run2 : ℚ := run - t.value
      match datePhaseV y2 md.1 md.2 with
      | .error e => .error e
      | .ok dt =>
        mcGo closing cdate y2 (some md) run2
          (acc ++ [(dt, t.desc, -t.value, run2)]) ts

/-- `validate_and_date_txns` of `cba-mc-pdf-to-csv.py`. -/
def mcValidate (txns : List MTxn) (opening closing : ℚ) (opening_year : Int)
    (closing_date : Nat × Nat) : Except Err (List MDTxn) :=
  mcGo closing closing_date opening_year none opening [] txns

/-! ## Specification-side reference definitions for balance validation

These follow the wording of the specification (Balance Continuity
Validator): a running balance seeded from the opening balance, updated by
adding each transaction's signed amount in order, compared against extracted
balances. -/

/-- Reference running-balance update, per the specification's words: an
opening record seeds the running balance from its extracted balance;
otherwise the signed amount (if any) is added. -/
def acctSpecStep (run : Option ℚ) (t : ATxn) : Option ℚ :=
  if strEndsWith t.desc " OPENING BALANCE" then t.balance
  else
    match t.value, run with
    | some v, some rb => some (rb + v)
    | _, _ => run

def acctIsClosing (t : ATxn) : Bool :=
  strEndsWith t.desc " CLOSING BALANCE"

/-- Reference per-record check 1: the record carries an extracted balance
that differs from the running balance after applying the record. -/
def acctChk1 (run : Option ℚ) (t : ATxn) : Bool :=
  match t.balance with
  | some b => decide (acctSpecStep run t ≠ some b)
  | none => false

/-- Reference per-record check 2: at a closing-marker record, the extracted
balance (possibly absent) differs from the running balance. -/
def acctChk2 (run : Option ℚ) (t : ATxn) : Bool :=
  acctIsClosing t && decide (t.balance ≠ acctSpecStep run t)

/-- Reference mismatch condition for the account-style validator: walking
the records in order, some record fails check 1 or check 2, or no
closing-marker record is present at all. -/
def acctSpecGo (run : Option ℚ) (found : Bool) : List ATxn → Bool
  | [] => !found
  | t :: ts =>
    acctChk1 run t || acctChk2 run t ||
      acctSpecGo (acctSpecStep run t) (found || acctIsClosing t) ts

def acctSpecMismatch (txns : List ATxn) : Bool :=
  acctSpecGo none false txns

/-- Reference final running balance for the account-style validator
(specification wording: seeded from the opening balance, updated by adding
each signed amount in order). -/
def acctSpecFinalRun (txns : List ATxn) : Option ℚ :=
  txns.foldl acctSpecStep none

/-- The balance declared by the (first) closing-marker record. -/
def acctDeclaredClosing (txns : List ATxn) : Option (Option ℚ) :=
  (txns.find? acctIsClosing).map (fun t => t.balance)

/-- Reference final running balance for the card-style validator: the
opening balance with every record's raw amount subtracted (the emitted
signed amount is the negated raw amount, so this is "adding each signed
amount in order" in the specification's sense). -/
def mcSpecFinalRun (opening : ℚ) (txns : List MTxn) : ℚ :=
  txns.foldl (fun rb t => rb - t.value) opening

/-- A validator outcome that is a success or a balance mismatch (i.e. the
run hits none of the format/amount/date/type error checks). -/
abbrev okOrBM {α : Type} (r : Except Err α) : Prop :=
  r = .error .balanceMismatch ∨ ∃ a, r = .ok a

/-- Decidable equality for `Except` outcomes, for evaluating the model on
concrete inputs. -/
instance {e a : Type} [DecidableEq e] [DecidableEq a] : DecidableEq (Except e a) := fun x y =>
  match x, y with
  | .error u, .error v =>
    if h : u = v then isTrue (by subst h; rfl)
    else isFalse (by intro hh; injection hh; contradiction)
  | .ok u, .ok v =>
    if h : u = v then isTrue (by subst h; rfl)
    else isFalse (by intro hh; injection hh; contradiction)
  | .error _, .ok _ => isFalse (by intro hh; injection hh)
  | .ok _, .error _ => isFalse (by intro hh; injection hh)

/-! ## Concrete documents and rows used in the theorems below -/

/-- A well-formed two-record account document: opening then closing, equal
balances. -/
def txnsGood : List ATxn :=
  [⟨(1, 1), "2020 OPENING BALANCE", none, some 100⟩,
   ⟨(1, 2), "2020 CLOSING BALANCE", none, some 100⟩]

def resGood : List DTxn :=
  [(⟨2020, 1, 1⟩, "2020 OPENING BALANCE", none, some 100),
   (⟨2020, 1, 2⟩, "2020 CLOSING BALANCE", none, some 100)]

/-- An account document whose closing record is followed by a further
transaction, so the final running balance (105) drifts away from the
declared closing balance (100) after the closing check. -/
def txnsPostClose : List ATxn :=
  [⟨(1, 1), "2020 OPENING BALANCE", none, some 100⟩,
   ⟨(1, 2), "2020 CLOSING BALANCE", none, some 100⟩,
   ⟨(1, 3), "EXTRA FEE", some 5, none⟩]

def resPostClose : List DTxn :=
  [(⟨2020, 1, 1⟩, "2020 OPENING BALANCE", none, some 100),
   (⟨2020, 1, 2⟩, "2020 CLOSING BALANCE", none, some 100),
   (⟨2020, 1, 3⟩, "EXTRA FEE", some 5, none)]

/-- An account document with a per-record balance mismatch (95 ≠ 96). -/
def txnsBM : List ATxn :=
  [⟨(1, 1), "2020 OPENING BALANCE", none, some 100⟩,
   ⟨(1, 2), "FEE", some (-5), some 96⟩]

/-- A card-style document with one transaction. -/
def mtxnsGood : List MTxn := [⟨some (2, 1), "FOO", 5⟩]


/-- A first fragment: date, description, no values. -/
def aStartRow : ARow := ⟨some (.pstr "01 Jan"), some (.pstr "FOO"), none, none, none⟩

/-- A continuation fragment: description only. -/
def aContRow : ARow := ⟨none, some (.pstr "BAR"), none, none, none⟩

/-- Header row, then one transaction start and three continuation rows, none
of them balance-bearing. -/
def c4rows : List ARow := [acctHeaderRow, aStartRow, aContRow, aContRow, aContRow]

def c4state : AState := ⟨true, [aStartRow, aContRow, aContRow, aContRow], [], 0⟩


/-- A trailer row of the account format (sentence in the description cell,
empty strings elsewhere). -/
def acctTrailerRowX : ARow :=
  ⟨none, some (.pstr RAW_TRAILER), some (.pstr ""), some (.pstr ""), some (.pstr "")⟩


/-- A card-format row holding an entire trailer sentence in its first cell,
with the other two cells empty. -/
def mcTrailerish : MRow :=
  ⟨some (.pstr "How to pay Weâ€™re here to help"), none, none⟩

def mcStHF : MState := ⟨true, [], []⟩


/-- The claim-side reading of the trailer condition: all cells concatenated
(an empty cell contributing nothing) with whitespace removed. -/
def rowConcatNoSpace (cells : List NCell) : String :=
  stripSpaces (concatAll (cells.map (fun c =>
    match c with
    | some (.pstr s) => s
    | _ => "")))

/-- An account raw transaction whose balance cell is the literal "Nil". -/
def rNil : ARawTxn :=
  ⟨some (.pstr "05 Jan"), "2020 OPENING BALANCE", none, none, some (.pstr "Nil")⟩


/-! ## Specification-side pipeline for the amount parser (C3) -/

/-- Step (1) of the specification's processing order: with `cr_dr`, require
a trailing `" DR"` (record a negative sign) or `" CR"` and strip it. -/
def amtStepCrDr (cr_dr : Bool) (p : ℚ × String) : Option (ℚ × String) :=
  if cr_dr then
    if strEndsWith p.2 " DR" then some (-1, strDropRight p.2 3)
    else if strEndsWith p.2 " CR" then some (p.1, strDropRight p.2 3)
    else none
  else some p

/-- Step (2): with `allow_negative`, strip a leading `"-"` (or a trailing
`"-"` when `negative_trailing`) and record the sign.  Looking at the first
or last character of an empty string fails. -/
def amtStepNeg (allow_negative negative_trailing : Bool) (p : ℚ × String) :
    Option (ℚ × String) :=
  if allow_negative then
    if negative_trailing then
      match p.2.data.getLast? with
      | none => none
      | some c => if c = '-' then some (-1, strDropRight p.2 1) else some p
    else
      match p.2.data.head? with
      | none => none
      | some c => if c = '-' then some (-1, strDrop p.2 1) else some p
  else some p

/-- Step (3): with `leading_dollar`, require and strip a leading `"$"`. -/
def amtStepDollar (leading_dollar : Bool) (p : ℚ × String) :
    Option (ℚ × String) :=
  if leading_dollar then
    match p.2.data.head? with
    | none => none
    | some c => if c = '$' then some (p.1, strDrop p.2 1) else none
  else some p

/-- Step (4): delete `","` and parse the remainder as an exact decimal,
applying the recorded sign. -/
def amtStepParse (p : ℚ × String) : Option ℚ :=
  (pyDecimal? ⟨p.2.data.filter (fun c => c ≠ ',')⟩).map (fun q => p.1 * q)

/-- The specification's four-step pipeline (after its two flag-exclusivity
preconditions), composed in the stated order. -/
def parse_amount_spec (s : String) (leading_dollar allow_negative
    negative_trailing cr_dr : Bool) : Option ℚ :=
  if allow_negative && cr_dr then none
  else if negative_trailing && !allow_negative then none
  else
    ((((some ((1 : ℚ), s)).bind (amtStepCrDr cr_dr)).bind
        (amtStepNeg allow_negative negative_trailing)).bind
      (amtStepDollar leading_dollar)).bind amtStepParse

/-- The two-character day token built from two digits. -/
def twoDigits (a b : Fin 10) : String :=
  ⟨[Char.ofNat (48 + a.val), Char.ofNat (48 + b.val)]⟩

/-- The `i`-th recognized month abbreviation (1-based in `month_abbr`). -/
def monthName (i : Fin 12) : String :=
  month_abbr.getD (i.val + 1) ""

/-- A card-format start row used as a concrete witness fragment. -/
def mStartRow : MRow := ⟨some (.pstr "05 Jan"), some (.pstr "THING"), some (.pstr "12.50")⟩

def mStateW : MState := ⟨true, [mStartRow], []⟩

def mRawW : MRawTxn := ⟨some (.pstr "05 Jan"), "THING", some (.pstr "12.50")⟩

def aStateHF : AState := ⟨true, [], [], 0⟩

def tNil : ATxn := ⟨(1, 5), "2020 OPENING BALANCE", none, some 0⟩

/-- The year-rollover relation between two consecutively emitted dates: the
later carries the same year, or the year plus one exactly when its
(month, day) went strictly backwards. -/
def yearStep (a b : PDate) : Prop :=
  if mdLt (b.month, b.day) (a.month, a.day) then b.year = a.year + 1
  else b.year = a.year

def yearLe (a b : PDate) : Prop := a.year ≤ b.year

/-! ## Theorems

Sanity evaluations of the embedding on concrete inputs, followed by the
claim theorems with their supporting lemmas. -/

set_option maxRecDepth 4096 in
example : parse_dd_mmm "05 Jan" = some (1, 5) := by decide
set_option maxRecDepth 4096 in
example : parse_amount "$50.00 DR" true false false true = some (-50) := by with_unfolding_all decide
set_option maxRecDepth 4096 in
example : parse_amount "-1,2.34" false true false false = some (-(1234 : ℚ) / 100) := by with_unfolding_all decide
example : mkDate 2021 1 99 = none := by decide
example : acctValidate txnsGood = .ok resGood := by with_unfolding_all decide
example : acctValidate txnsPostClose = .ok resPostClose := by
  with_unfolding_all decide
example : acctValidate txnsBM = .error .balanceMismatch := by
  with_unfolding_all decide
example : mcValidate mtxnsGood 100 95 2020 (6, 30) =
    .ok [(⟨2020, 2, 1⟩, "FOO", -5, 95)] := by with_unfolding_all decide
example : mcValidate mtxnsGood 100 94 2020 (6, 30) = .error .balanceMismatch := by
  with_unfolding_all decide
example : acctScanRows acctInit c4rows = .ok c4state := by
  with_unfolding_all decide
example : acctScanTxnsRaw [acctHeaderRow, aStartRow, acctTrailerRowX] =
    .error .formatViolation := by with_unfolding_all decide
example : mcStep mcStHF mcTrailerish = .error .formatViolation := by
  with_unfolding_all decide
example : acctFinish rNil = .ok ⟨(1, 5), "2020 OPENING BALANCE", none, some 0⟩ := by
  with_unfolding_all decide
example : mcScanTxnsRaw
    [mcHeaderRow, ⟨some (.pstr "05 Jan"), some (.pstr "THING"), some (.pstr "12.50")⟩] =
    .ok [⟨some (.pstr "05 Jan"), "THING", some (.pstr "12.50")⟩] := by
  with_unfolding_all decide

/-- C3: for every input string and configuration, `parse_amount` is exactly
the specification's four-step pipeline in the stated order (CR/DR suffix,
then sign marker, then leading dollar, then comma-stripped exact decimal
parse, failing when a required marker is absent or the remainder is not a
valid decimal literal), and in particular `"$50.00 DR"` under `cr_dr` with
`leading_dollar` parses to exactly −50.00 and `"$50.00 CR"` to exactly
50.00. -/
theorem c3_parse_amount_pipeline :
    (∀ (s : String) (ld an nt cd : Bool),
        parse_amount s ld an nt cd = parse_amount_spec s ld an nt cd)
  ∧ parse_amount "$50.00 DR" true false false true = some (-(5000 : ℚ) / 100)
  ∧ parse_amount "$50.00 CR" true false false true = some ((5000 : ℚ) / 100) := by
  refine ⟨fun s ld an nt cd => ?_, by with_unfolding_all decide,
    by with_unfolding_all decide⟩
  cases ld <;> cases an <;> cases nt <;> cases cd <;>
    simp [parse_amount, parse_amount_spec, amtStepCrDr, amtStepNeg,
      amtStepDollar, amtStepParse, Option.bind] <;>
    (repeat' split) <;>
    simp_all [amtStepCrDr, amtStepNeg, amtStepDollar, amtStepParse, Option.bind]

/-- C7 counterexample: a non-NaN float cell passes through the Row
Normalizer unchanged, so after normalization it is neither a string nor the
empty marker, refuting "after normalization every cell is exactly one of: a
string, or the empty marker". -/
theorem c7_counterexample :
    normalize_cell (.pfloat false) = some (.pfloat false) ∧
    isStrOrEmpty (normalize_cell (.pfloat false)) = false := by
  decide

/-- C7 (amended): the Row Normalizer maps a float NaN cell — and only a
float NaN cell — to the explicit empty marker, and passes every other cell
through unchanged (so string cells stay strings, but a non-NaN float cell
remains a float rather than becoming a string or the empty marker). -/
theorem c7_normalize_cases :
    ∀ x : PCell,
      (normalize_cell x = none ↔ x = .pfloat true) ∧
      (normalize_cell x = none ∨ normalize_cell x = some x) := by
  intro x
  cases x with
  | pstr s => simp [normalize_cell]
  | pfloat b => cases b <;> simp [normalize_cell]

/-- C9: `parse_dd_mmm` performs no range or calendar validation beyond the
two-digit day shape: every two-digit day token with every recognized
three-letter month abbreviation parses successfully to `(month, day)`, e.g.
`"99 Jan"` to `(1, 99)` and `"00 Feb"` to `(2, 0)`; the out-of-range day is
only rejected later, at `datetime.date` construction (`mkDate`), e.g. inside
the account validator, which fails with a date error on day 99. -/
theorem c9_parse_dd_mmm_no_range_check :
    (∀ (a b : Fin 10) (i : Fin 12),
        parse_dd_mmm (twoDigits a b ++ " " ++ monthName i) =
          some (i.val + 1, 10 * a.val + b.val))
  ∧ parse_dd_mmm "99 Jan" = some (1, 99)
  ∧ parse_dd_mmm "00 Feb" = some (2, 0)
  ∧ mkDate 2021 1 99 = none
  ∧ acctValidate [⟨(1, 99), "2021 OPENING BALANCE", none, some 100⟩] =
      .error .dateFormat := by
  refine ⟨by decide, by decide, by decide, by decide, by with_unfolding_all decide⟩

/-- Inversion for `acctFinish`: a successful finish obtained its balance
from `acctBalancePart` on the raw balance cell. -/
theorem acctFinish_balance_inv (r : ARawTxn) (t : ATxn)
    (hok : acctFinish r = .ok t) :
    ∃ nb, acctBalancePart nb r.balance = .ok t.balance := by
  simp only [acctFinish] at hok
  repeat' split at hok
  all_goals try exact Except.noConfusion hok
  cases hok
  exact ⟨_, by assumption⟩

theorem acctBalancePart_zero (nb : Bool) (b : Option ℚ)
    (h : acctBalancePart nb (some (.pstr "Nil")) = .ok b ∨
         acctBalancePart nb (some (.pstr "$0.00")) = .ok b) :
    b = some 0 := by
  cases nb <;> rcases h with h | h <;> simp [acctBalancePart] at h <;>
    exact h.symm

theorem acctBalancePart_other (nb : Bool) (s : String) (b : Option ℚ)
    (h1 : s ≠ "Nil") (h2 : s ≠ "$0.00")
    (h : acctBalancePart nb (some (.pstr s)) = .ok b) :
    parse_amount s true false false true = b := by
  cases nb <;> simp [acctBalancePart, h1, h2] at h
  split at h
  · rename_i v hv
    cases h
    exact hv
  · exact Except.noConfusion h

theorem acctBalancePart_fail (nb : Bool) (s : String) (b : Option ℚ)
    (h1 : s ≠ "Nil") (h2 : s ≠ "$0.00")
    (hpn : parse_amount s true false false true = none) :
    acctBalancePart nb (some (.pstr s)) ≠ .ok b := by
  cases nb <;> simp [acctBalancePart, h1, h2, hpn]

/-- C10: in the account-style finishing stage, a balance cell equal to the
literal string "Nil" or "$0.00" maps directly to the exact decimal 0.00 —
the amount parser itself rejects both strings under the
leading-dollar/CR-DR contract, so the special case is observable — and any
other string balance cell must satisfy `parse_amount` with `leading_dollar`
and `cr_dr` (the parsed value becoming the transaction's balance), the
document failing when it does not. -/
theorem c10_balance_special :
    (∀ r t, acctFinish r = .ok t →
        r.balance = some (.pstr "Nil") ∨ r.balance = some (.pstr "$0.00") →
        t.balance = some 0)
  ∧ parse_amount "Nil" true false false true = none
  ∧ parse_amount "$0.00" true false false true = none
  ∧ (∀ r s t, acctFinish r = .ok t → r.balance = some (.pstr s) →
        s ≠ "Nil" → s ≠ "$0.00" →
        parse_amount s true false false true = t.balance)
  ∧ (∀ r s, r.balance = some (.pstr s) → s ≠ "Nil" → s ≠ "$0.00" →
        parse_amount s true false false true = none →
        (acctFinish r).isOk = false) := by
  refine ⟨?_, by decide, by decide, ?_, ?_⟩
  · intro r t hok hb
    obtain ⟨nb, hbal⟩ := acctFinish_balance_inv r t hok
    refine acctBalancePart_zero nb t.balance ?_
    rcases hb with hb | hb <;> rw [hb] at hbal
    · exact Or.inl hbal
    · exact Or.inr hbal
  · intro r s t hok hb h1 h2
    obtain ⟨nb, hbal⟩ := acctFinish_balance_inv r t hok
    rw [hb] at hbal
    exact acctBalancePart_other nb s t.balance h1 h2 hbal
  · intro r s hb h1 h2 hpn
    cases hfin : acctFinish r with
    | error e => rfl
    | ok t =>
      obtain ⟨nb, hbal⟩ := acctFinish_balance_inv r t hfin
      rw [hb] at hbal
      exact absurd hbal (acctBalancePart_fail nb s t.balance h1 h2 hpn)

/-- C5 counterexample: in the account-style scanner, a trailer row reached
with a nonempty accumulation makes the document fail with a FormatViolation
instead of flushing the accumulation as the final RawTransaction. -/
theorem c5_counterexample :
    acctScanTxnsRaw [acctHeaderRow, aStartRow, acctTrailerRowX] =
      .error .formatViolation := by
  with_unfolding_all decide

/-- C5 (amended): only the card-style scanner flushes a remaining
accumulation on reaching DONE or the end of input as the final
RawTransaction (subject to the ≤ 3 fragment check); the account-style
scanner instead requires the accumulation to be empty at that point and
raises a FormatViolation otherwise (its transactions only flush on a
balance-bearing terminal row). -/
theorem c5_final_flush :
    (∀ (st : MState) (t : MRawTxn), st.accum ≠ [] → st.accum.length ≤ 3 →
        mcMergeAccum st.accum = .ok t →
        mcFinalize st = .ok (st.txns_raw ++ [t]))
  ∧ (∀ st : AState, st.accum ≠ [] →
        acctFinalize st = .error .formatViolation) := by
  constructor
  · intro st t hne hlen hmerge
    simp [mcFinalize, mcMaybeFlush, hne, hlen, hmerge, Except.map]
  · intro st hne
    simp [acctFinalize, hne]

theorem c5_witness :
    mStateW.accum ≠ [] ∧ mStateW.accum.length ≤ 3 ∧
    mcMergeAccum mStateW.accum = .ok mRawW ∧
    mcFinalize mStateW = .ok (mStateW.txns_raw ++ [mRawW]) :=
  ⟨by decide, by decide, by decide,
   c5_final_flush.1 mStateW mRawW (by decide) (by decide) (by decide)⟩

/-- C6 counterexample: a card-format row whose cells concatenate
(whitespace removed) to a known trailer sentence, but with an empty cell
among them, is not treated as a trailer: the scanner raises a
FormatViolation at it rather than transitioning to DONE. -/
theorem c6_counterexample :
    rowConcatNoSpace [mcTrailerish.c0, mcTrailerish.c1, mcTrailerish.c2] =
      stripSpaces "How to pay Weâ€™re here to help"
  ∧ "How to pay Weâ€™re here to help" ∈ RAW_TRAILERS
  ∧ mcStep mcStHF mcTrailerish = .error .formatViolation := by
  refine ⟨by decide, by decide, by with_unfolding_all decide⟩

/-- C6 (amended): once the header has been seen, a row satisfying the
scanner's trailer condition — account-style: first cell empty and the four
remaining cells all strings whose concatenation, whitespace removed, equals
the trailer sentence (and the row does not match a carried/brought-forward
artifact pattern); card-style: all three cells strings whose concatenation,
whitespace removed, equals one of the trailer sentences — stops scanning at
that row with the state unchanged: no further row is consumed and the
trailer row is not emitted into any RawTransaction. -/
theorem c6_trailer_stop :
    (∀ (st : AState) (r : ARow) (rest : List ARow), st.header_found = true →
        isCarriedForward r = false → isBroughtForward r = false →
        isAcctTrailer r = true → acctScanRows st (r :: rest) = .ok st)
  ∧ (∀ (st : MState) (r : MRow) (rest : List MRow), st.header_found = true →
        isMcTrailer r = true → mcScanRows st (r :: rest) = .ok st) := by
  constructor
  · intro st r rest hhf hcf hbf htr
    have hne : ¬r = acctHeaderRow := by
      intro h; rw [h] at htr; exact absurd htr (by decide)
    have hstep : acctStep st r = .ok (.done st) := by
      simp [acctStep, hcf, hbf, hne, hhf, htr]
    simp [acctScanRows, hstep]
  · intro st r rest hhf htr
    have hne : ¬r = mcHeaderRow := by
      intro h; rw [h] at htr; exact absurd htr (by decide)
    have hstep : mcStep st r = .ok (.done st) := by
      simp [mcStep, hne, hhf, htr]
    simp [mcScanRows, hstep]

theorem c6_witness :
    aStateHF.header_found = true ∧
    isCarriedForward acctTrailerRowX = false ∧
    isBroughtForward acctTrailerRowX = false ∧
    isAcctTrailer acctTrailerRowX = true ∧
    acctScanRows aStateHF [acctTrailerRowX, aStartRow] = .ok aStateHF :=
  ⟨rfl, by decide, by decide, by decide,
   c6_trailer_stop.1 aStateHF acctTrailerRowX [aStartRow] rfl (by decide)
     (by decide) (by decide)⟩

/-- C4 counterexample: after a start row and three continuation rows the
account-style scanner holds four fragments with no error raised, so the
accumulation does exceed 3 rows mid-scan and the 4th fragment row does not
itself raise a FormatViolation. -/
theorem c4_counterexample :
    acctScanRows acctInit c4rows = .ok c4state ∧ c4state.accum.length = 4 := by
  refine ⟨by with_unfolding_all decide, by decide⟩

theorem acctFlush_ok_len (st : AState) (l : List ARow) (n : Nat)
    (x : StepRes AState) (h : acctFlush st l n = .ok x) : l.length ≤ 3 := by
  simp only [acctFlush] at h
  split at h
  · assumption
  · exact Except.noConfusion h

theorem acctFlush_done (st : AState) (l : List ARow) (n : Nat)
    (st2 : AState) : acctFlush st l n ≠ .ok (.done st2) := by
  simp only [acctFlush]
  split
  · split <;> simp
  · simp

set_option maxHeartbeats 2000000 in
theorem acctStep_done_eq (st : AState) (r : ARow) (st2 : AState)
    (h : acctStep st r = .ok (.done st2)) : st2 = st := by
  simp only [acctStep] at h
  repeat' split at h
  all_goals try exact absurd h (acctFlush_done _ _ _ _)
  all_goals cases h
  all_goals rfl

set_option maxHeartbeats 2000000 in
theorem acctStep_cont_overflow (st : AState) (r : ARow) (st2 : AState)
    (hlen : 3 < st.accum.length) (h : acctStep st r = .ok (.cont st2)) :
    3 < st2.accum.length := by
  simp only [acctStep] at h
  repeat' split at h
  all_goals try
    (have hfl := acctFlush_ok_len _ _ _ _ h
     simp only [List.length_append, List.length_cons] at hfl
     omega)
  all_goals cases h
  all_goals try exact hlen
  all_goals simp only [List.length_append, List.length_cons]
  all_goals omega

theorem mcMaybeFlush_ok_len (st st2 : MState) (hne : st.accum ≠ [])
    (h : mcMaybeFlush st = .ok st2) : st.accum.length ≤ 3 := by
  simp only [mcMaybeFlush] at h
  rw [if_neg hne] at h
  split at h
  · assumption
  · exact Except.noConfusion h

theorem mcStep_done_eq (st : MState) (r : MRow) (st2 : MState)
    (h : mcStep st r = .ok (.done st2)) : st2 = st := by
  simp only [mcStep] at h
  repeat' split at h
  all_goals cases h
  all_goals rfl

theorem mcStep_cont_overflow (st : MState) (r : MRow) (st2 : MState)
    (hlen : 3 < st.accum.length) (h : mcStep st r = .ok (.cont st2)) :
    3 < st2.accum.length := by
  have hne : st.accum ≠ [] := by
    intro hh
    rw [hh] at hlen
    simp at hlen
  simp only [mcStep] at h
  repeat' split at h
  all_goals try
    (exfalso
     rename_i st3 hfl
     exact absurd (mcMaybeFlush_ok_len st st3 hne hfl) (by omega))
  all_goals cases h
  all_goals try exact hlen
  all_goals simp only [List.length_append, List.length_cons]
  all_goals omega

theorem acctScan_overflow (rows : List ARow) :
    ∀ st : AState, 3 < st.accum.length →
      ∃ e, (acctScanRows st rows).bind acctFinalize = .error e := by
  induction rows with
  | nil =>
    intro st hlen
    have hne : st.accum ≠ [] := by
      intro hh
      rw [hh] at hlen
      simp at hlen
    exact ⟨.formatViolation,
      by simp [acctScanRows, acctFinalize, Except.bind, hne]⟩
  | cons r rs ih =>
    intro st hlen
    cases hstep : acctStep st r with
    | error e => exact ⟨e, by simp [acctScanRows, hstep, Except.bind]⟩
    | ok sr =>
      cases sr with
      | done st2 =>
        have hd := acctStep_done_eq st r st2 hstep
        have hne : st2.accum ≠ [] := by
          rw [hd]
          intro hh
          rw [hh] at hlen
          simp at hlen
        exact ⟨.formatViolation,
          by simp [acctScanRows, hstep, acctFinalize, Except.bind, hne]⟩
      | cont st2 =>
        obtain ⟨e, he⟩ := ih st2 (acctStep_cont_overflow st r st2 hlen hstep)
        exact ⟨e, by simp only [acctScanRows, hstep]; exact he⟩

theorem mcScan_overflow (rows : List MRow) :
    ∀ st : MState, 3 < st.accum.length →
      ∃ e, (mcScanRows st rows).bind mcFinalize = .error e := by
  induction rows with
  | nil =>
    intro st hlen
    have hne : st.accum ≠ [] := by
      intro hh
      rw [hh] at hlen
      simp at hlen
    have hmf : mcMaybeFlush st = .error .formatViolation := by
      simp only [mcMaybeFlush]
      rw [if_neg hne, if_neg (by omega)]
    exact ⟨.formatViolation,
      by simp [mcScanRows, mcFinalize, Except.bind, Except.map, hmf]⟩
  | cons r rs ih =>
    intro st hlen
    cases hstep : mcStep st r with
    | error e => exact ⟨e, by simp [mcScanRows, hstep, Except.bind]⟩
    | ok sr =>
      cases sr with
      | done st2 =>
        have hd := mcStep_done_eq st r st2 hstep
        have hne : st2.accum ≠ [] := by
          rw [hd]
          intro hh
          rw [hh] at hlen
          simp at hlen
        have hmf : mcMaybeFlush st2 = .error .formatViolation := by
          simp only [mcMaybeFlush]
          rw [if_neg hne, if_neg (by rw [hd]; omega)]
        exact ⟨.formatViolation,
          by simp [mcScanRows, hstep, mcFinalize, Except.bind, Except.map, hmf]⟩
      | cont st2 =>
        obtain ⟨e, he⟩ := ih st2 (mcStep_cont_overflow st r st2 hlen hstep)
        exact ⟨e, by simp only [mcScanRows, hstep]; exact he⟩

/-- C4 (amended): neither scanner bounds the accumulation at the moment a
row is appended — it can transiently hold 4 or more fragments with no error
(see the counterexample) — but the 3-fragment limit is enforced at every
flush: once the accumulation exceeds 3 rows, the scan can never complete
successfully, failing with a fatal error at the next flush point (next start
row, trailer row) or at end of input, so no RawTransaction is ever produced
from more than 3 fragments. -/
theorem c4_overflow_fatal :
    (∀ (st : AState) (rows : List ARow), 3 < st.accum.length →
        ∃ e, (acctScanRows st rows).bind acctFinalize = .error e)
  ∧ (∀ (st : MState) (rows : List MRow), 3 < st.accum.length →
        ∃ e, (mcScanRows st rows).bind mcFinalize = .error e) :=
  ⟨fun st rows h => acctScan_overflow rows st h,
   fun st rows h => mcScan_overflow rows st h⟩

theorem c4_witness :
    3 < c4state.accum.length ∧
    ∃ e, (acctScanRows c4state []).bind acctFinalize = .error e :=
  ⟨by decide, c4_overflow_fatal.1 c4state [] (by decide)⟩

theorem c10_witness :
    acctFinish rNil = .ok tNil ∧
    (rNil.balance = some (.pstr "Nil") ∨ rNil.balance = some (.pstr "$0.00")) ∧
    tNil.balance = some 0 :=
  ⟨by with_unfolding_all decide, Or.inl rfl,
   c10_balance_special.1 rNil tNil (by with_unfolding_all decide) (Or.inl rfl)⟩

/-! ## Phase lemmas for the account validator -/

set_option maxHeartbeats 2000000 in
theorem acctOpenPhase_ok (ly : Option Int) (lmd : Option (Nat × Nat))
    (run : Option ℚ) (t : ATxn) (ly1 : Option Int) (lmd1 : Option (Nat × Nat))
    (run1 : Option ℚ)
    (h : acctOpenPhase ly lmd run t = .ok (ly1, lmd1, run1)) :
    (strEndsWith t.desc " OPENING BALANCE" = true →
       ly = none ∧ t.value = none ∧
       (∃ y, chToInt? (strDropRight t.desc 16).data = some y ∧ ly1 = some y) ∧
       lmd1 = some (t.md.1, t.md.2) ∧ run1 = t.balance) ∧
    (strEndsWith t.desc " OPENING BALANCE" = false →
       ly1 = ly ∧ lmd1 = lmd ∧ run1 = run ∧ ∃ y, ly = some y) := by
  simp only [acctOpenPhase] at h
  split at h
  · rename_i hop
    repeat' split at h
    all_goals try exact Except.noConfusion h
    cases h
    refine ⟨fun _ => ⟨rfl, by assumption, ⟨_, by assumption, rfl⟩, rfl, rfl⟩,
      fun hh => by rw [hop] at hh; cases hh⟩
  · rename_i hop
    repeat' split at h
    all_goals try exact Except.noConfusion h
    cases h
    refine ⟨fun hh => absurd hh hop, fun _ => ⟨rfl, rfl, rfl, ?_⟩⟩
    exact ⟨_, rfl⟩

theorem acctOpenPhase_not_bm (ly : Option Int) (lmd : Option (Nat × Nat))
    (run : Option ℚ) (t : ATxn) :
    acctOpenPhase ly lmd run t ≠ .error .balanceMismatch := by
  simp only [acctOpenPhase]
  repeat' split
  all_goals simp

theorem acctRunPhase_ok (run1 value run2 : Option ℚ)
    (h : acctRunPhase run1 value = .ok run2) :
    (value = none → run2 = run1) ∧
    (∀ v, value = some v → ∃ rb, run1 = some rb ∧ run2 = some (rb + v)) := by
  simp only [acctRunPhase] at h
  repeat' split at h
  all_goals try exact Except.noConfusion h
  all_goals cases h
  · exact ⟨fun _ => rfl, fun v hv => by simp_all⟩
  · rename_i v rb
    exact ⟨by simp_all, fun v2 hv2 => ⟨rb, rfl, by simp_all⟩⟩

theorem acctRunPhase_not_bm (run1 value : Option ℚ) :
    acctRunPhase run1 value ≠ .error .balanceMismatch := by
  simp only [acctRunPhase]
  repeat' split
  all_goals simp

theorem acctChkPhase_ok (run2 balance : Option ℚ)
    (h : acctChkPhase run2 balance = .ok ()) :
    ∀ b, balance = some b → run2 = some b := by
  intro b hb
  simp only [acctChkPhase, hb] at h
  split at h
  · assumption
  · exact Except.noConfusion h

theorem acctChkPhase_err (run2 balance : Option ℚ) (e : Err)
    (h : acctChkPhase run2 balance = .error e) :
    e = .balanceMismatch ∧ ∃ b, balance = some b ∧ run2 ≠ some b := by
  simp only [acctChkPhase] at h
  repeat' split at h
  all_goals try exact Except.noConfusion h
  all_goals cases h
  exact ⟨rfl, ⟨_, rfl, by assumption⟩⟩

theorem acctClosePhase_ok (y2 : Int) (found : Bool) (run2 : Option ℚ)
    (t : ATxn) (found2 : Bool)
    (h : acctClosePhase y2 found run2 t = .ok found2) :
    found2 = (found || acctIsClosing t) ∧
    (acctIsClosing t = true → t.balance = run2) := by
  simp only [acctClosePhase] at h
  split at h
  · rename_i hcl
    repeat' split at h
    all_goals try exact Except.noConfusion h
    cases h
    rename_i hbal
    exact ⟨by simp [acctIsClosing, hcl], fun _ => hbal⟩
  · rename_i hcl
    cases h
    have hc : acctIsClosing t = false := by
      simp only [acctIsClosing]
      exact Bool.eq_false_iff.mpr hcl
    exact ⟨by simp [hc], fun hh => absurd hh (by simp [hc])⟩

theorem acctClosePhase_bm (y2 : Int) (found : Bool) (run2 : Option ℚ)
    (t : ATxn) (h : acctClosePhase y2 found run2 t = .error .balanceMismatch) :
    acctIsClosing t = true ∧ t.balance ≠ run2 := by
  simp only [acctClosePhase] at h
  split at h
  · rename_i hcl
    repeat' split at h
    all_goals try exact Except.noConfusion h
    all_goals try (cases h)
    rename_i hne
    exact ⟨by simpa [acctIsClosing] using hcl, hne⟩
  · exact Except.noConfusion h

theorem mkDate_some (y : Int) (m d : Nat) (dt : PDate)
    (h : mkDate y m d = some dt) : dt = ⟨y, m, d⟩ := by
  simp only [mkDate] at h
  split at h
  · cases h
    rfl
  · exact Option.noConfusion h

theorem datePhaseV_ok (y2 : Int) (m d : Nat) (dt : PDate)
    (h : datePhaseV y2 m d = .ok dt) : dt = ⟨y2, m, d⟩ := by
  simp only [datePhaseV] at h
  split at h
  · split at h
    · exact Except.noConfusion h
    · rename_i dt2 hmk
      cases h
      exact mkDate_some _ _ _ _ hmk
  · exact Except.noConfusion h

theorem datePhaseV_not_bm (y2 : Int) (m d : Nat) :
    datePhaseV y2 m d ≠ .error .balanceMismatch := by
  simp only [datePhaseV]
  repeat' split
  all_goals simp

/-- Through the opening phase and the running-balance update, a successful
step computes exactly the specification's reference running balance. -/
theorem acctRun_spec (ly : Option Int) (lmd : Option (Nat × Nat))
    (run : Option ℚ) (t : ATxn) (ly1 : Option Int) (lmd1 : Option (Nat × Nat))
    (run1 run2 : Option ℚ)
    (hopen : acctOpenPhase ly lmd run t = .ok (ly1, lmd1, run1))
    (hrun : acctRunPhase run1 t.value = .ok run2) :
    run2 = acctSpecStep run t := by
  obtain ⟨hopT, hopF⟩ := acctOpenPhase_ok ly lmd run t ly1 lmd1 run1 hopen
  by_cases hop : strEndsWith t.desc " OPENING BALANCE" = true
  · obtain ⟨hlyn, hvn, hy, hlmd1, hrun1⟩ := hopT hop
    obtain ⟨hn, -⟩ := acctRunPhase_ok run1 t.value run2 hrun
    unfold acctSpecStep
    rw [if_pos hop, hn hvn, hrun1]
  · obtain ⟨hly1, hlmd1, hrun1, y0, hy0⟩ := hopF (Bool.eq_false_iff.mpr hop)
    obtain ⟨hn, hs⟩ := acctRunPhase_ok run1 t.value run2 hrun
    unfold acctSpecStep
    rw [if_neg hop]
    cases hv : t.value with
    | none => simp [hv, hn hv, hrun1]
    | some v =>
      obtain ⟨rb, hrb, hr2⟩ := hs v hv
      rw [hrun1] at hrb
      simp [hv, hrb, hr2]

set_option maxHeartbeats 1000000 in
/-- Everything a successful validator step guarantees: the running balance
follows the specification's reference update, the closing flag is the OR
with this record being a closing marker, the emitted date carries the new
year and this record's month/day, both reference balance checks pass, an
opening record requires a fresh year state and no amount, and a non-opening
record rolls the year over by the month/day comparison. -/
theorem acctStepV_ok (ly : Option Int) (lmd : Option (Nat × Nat)) (found : Bool)
    (run : Option ℚ) (t : ATxn) (y2 : Int) (md2 : Nat × Nat) (found2 : Bool)
    (run2 : Option ℚ) (dt : PDate)
    (h : acctStepV ly lmd found run t = .ok (y2, md2, found2, run2, dt)) :
    run2 = acctSpecStep run t ∧
    found2 = (found || acctIsClosing t) ∧
    md2 = (t.md.1, t.md.2) ∧
    dt = ⟨y2, t.md.1, t.md.2⟩ ∧
    acctChk1 run t = false ∧
    acctChk2 run t = false ∧
    (strEndsWith t.desc " OPENING BALANCE" = true →
       ly = none ∧ t.value = none ∧
       (chToInt? (strDropRight t.desc 16).data).isSome = true) ∧
    (strEndsWith t.desc " OPENING BALANCE" = false →
       ∃ y1 p, ly = some y1 ∧ lmd = some p ∧
         y2 = if mdLt (t.md.1, t.md.2) p then y1 + 1 else y1) := by
  cases hopen : acctOpenPhase ly lmd run t with
  | error e => simp [acctStepV, hopen] at h
  | ok trip =>
  obtain ⟨ly1, lmd1, run1⟩ := trip
  obtain ⟨hopT, hopF⟩ := acctOpenPhase_ok ly lmd run t ly1 lmd1 run1 hopen
  cases ly1 with
  | none => simp [acctStepV, hopen] at h
  | some y1 =>
  cases lmd1 with
  | none => simp [acctStepV, hopen] at h
  | some p =>
  cases hrun : acctRunPhase run1 t.value with
  | error e => simp [acctStepV, hopen, hrun] at h
  | ok run2x =>
  cases hchk : acctChkPhase run2x t.balance with
  | error e => simp [acctStepV, hopen, hrun, hchk] at h
  | ok u =>
  obtain ⟨⟩ := u
  cases hclose : acctClosePhase (if mdLt (t.md.1, t.md.2) p then y1 + 1 else y1)
      found run2x t with
  | error e => simp [acctStepV, hopen, hrun, hchk, hclose] at h
  | ok found2x =>
  cases hdate : datePhaseV (if mdLt (t.md.1, t.md.2) p then y1 + 1 else y1)
      t.md.1 t.md.2 with
  | error e => simp [acctStepV, hopen, hrun, hchk, hclose, hdate] at h
  | ok dtx =>
  simp only [acctStepV, hopen, hrun, hchk, hclose, hdate] at h
  cases h
  have hrun2 : run2 = acctSpecStep run t :=
    acctRun_spec ly lmd run t _ _ run1 run2 hopen hrun
  obtain ⟨hf2, hcb⟩ := acctClosePhase_ok _ found run2 t _ hclose
  have hchk1 : acctChk1 run t = false := by
    cases hb : t.balance with
    | none => simp [acctChk1, hb]
    | some b =>
      have hc := acctChkPhase_ok run2 t.balance hchk b hb
      simp [acctChk1, hb, ← hrun2, hc]
  have hchk2 : acctChk2 run t = false := by
    cases hc : acctIsClosing t with
    | false => simp [acctChk2, hc]
    | true =>
      have hb := hcb hc
      simp [acctChk2, hc, ← hrun2, hb]
  refine ⟨hrun2, hf2, rfl, datePhaseV_ok _ _ _ _ hdate, hchk1, hchk2,
    fun hop => ⟨(hopT hop).1, (hopT hop).2.1, by
      obtain ⟨y, hy, -⟩ := (hopT hop).2.2.1
      simp [hy]⟩, fun hof => ?_⟩
  obtain ⟨hly1, hlmd1, hrun1, y0, hy0⟩ := hopF hof
  exact ⟨y1, p, hly1.symm, hlmd1.symm, rfl⟩

set_option maxHeartbeats 1000000 in
/-- A validator step can only fail with a balance mismatch when one of the
specification's two reference balance checks fails at this record. -/
theorem acctStepV_bm (ly : Option Int) (lmd : Option (Nat × Nat)) (found : Bool)
    (run : Option ℚ) (t : ATxn)
    (h : acctStepV ly lmd found run t = .error .balanceMismatch) :
    acctChk1 run t = true ∨ acctChk2 run t = true := by
  cases hopen : acctOpenPhase ly lmd run t with
  | error e =>
    simp only [acctStepV, hopen] at h
    cases h
    exact absurd hopen (acctOpenPhase_not_bm ly lmd run t)
  | ok trip =>
  obtain ⟨ly1, lmd1, run1⟩ := trip
  cases ly1 with
  | none => simp [acctStepV, hopen] at h
  | some y1 =>
  cases lmd1 with
  | none => simp [acctStepV, hopen] at h
  | some p =>
  cases hrun : acctRunPhase run1 t.value with
  | error e =>
    simp only [acctStepV, hopen, hrun] at h
    cases h
    exact absurd hrun (acctRunPhase_not_bm run1 t.value)
  | ok run2 =>
  cases hchk : acctChkPhase run2 t.balance with
  | error e =>
    simp only [acctStepV, hopen, hrun, hchk] at h
    cases h
    obtain ⟨-, b, hb, hne⟩ := acctChkPhase_err run2 t.balance _ hchk
    left
    rw [acctRun_spec ly lmd run t _ _ run1 run2 hopen hrun] at hne
    simp [acctChk1, hb, hne]
  | ok u =>
  obtain ⟨⟩ := u
  cases hclose : acctClosePhase (if mdLt (t.md.1, t.md.2) p then y1 + 1 else y1)
      found run2 t with
  | error e =>
    simp only [acctStepV, hopen, hrun, hchk, hclose] at h
    cases h
    obtain ⟨hcl, hne⟩ := acctClosePhase_bm _ found run2 t hclose
    right
    rw [acctRun_spec ly lmd run t _ _ run1 run2 hopen hrun] at hne
    simp [acctChk2, hcl, hne]
  | ok found2 =>
  cases hdate : datePhaseV (if mdLt (t.md.1, t.md.2) p then y1 + 1 else y1)
      t.md.1 t.md.2 with
  | error e =>
    simp only [acctStepV, hopen, hrun, hchk, hclose, hdate] at h
    cases h
    exact absurd hdate (datePhaseV_not_bm _ _ _)
  | ok dt =>
    simp [acctStepV, hopen, hrun, hchk, hclose, hdate] at h

/-- Balance-mismatch characterization of the account validator loop, for
runs that hit no other error kind: the loop fails with a balance mismatch
exactly when the specification's reference walk flags one. -/
theorem acctGo_bm_iff (txns : List ATxn) : ∀ (ly : Option Int)
    (lmd : Option (Nat × Nat)) (found : Bool) (run : Option ℚ)
    (acc : List DTxn), okOrBM (acctGo ly lmd found run acc txns) →
    (acctGo ly lmd found run acc txns = .error .balanceMismatch ↔
      acctSpecGo run found txns = true) := by
  induction txns with
  | nil =>
    intro ly lmd found run acc hok
    simp only [acctGo, acctSpecGo]
    cases found <;> simp
  | cons t ts ih =>
    intro ly lmd found run acc hok
    cases hstep : acctStepV ly lmd found run t with
    | error e =>
      have hgo : acctGo ly lmd found run acc (t :: ts) = .error e := by
        simp [acctGo, hstep]
      have he : e = .balanceMismatch := by
        rcases hok with hbm | ⟨a, ha⟩
        · rw [hgo] at hbm
          exact Except.error.inj hbm
        · rw [hgo] at ha
          exact Except.noConfusion ha
      subst he
      rw [hgo]
      simp only [acctSpecGo]
      constructor
      · intro _
        rcases acctStepV_bm ly lmd found run t hstep with hc | hc <;> simp [hc]
      · intro _
        trivial
    | ok quint =>
      obtain ⟨y2, md2, found2, run2, dt⟩ := quint
      obtain ⟨hrun, hfound, -, -, hchk1, hchk2, -, -⟩ :=
        acctStepV_ok ly lmd found run t y2 md2 found2 run2 dt hstep
      have hgo : acctGo ly lmd found run acc (t :: ts) =
          acctGo (some y2) (some md2) found2 run2
            (acc ++ [(dt, t.desc, t.value, t.balance)]) ts := by
        simp [acctGo, hstep]
      rw [hgo] at hok ⊢
      simp only [acctSpecGo, hchk1, hchk2, Bool.false_or]
      rw [← hrun, ← hfound]
      exact ih (some y2) (some md2) found2 run2 _ hok

/-- Balance-mismatch characterization of the card-style validator loop, for
runs that hit no other error kind: it fails with a balance mismatch exactly
when the declared closing balance differs from the final reference running
balance. -/
theorem mcGo_bm_iff (txns : List MTxn) : ∀ (c : ℚ) (cd : Nat × Nat) (ly : Int)
    (lmd : Option (Nat × Nat)) (run : ℚ) (acc : List MDTxn),
    okOrBM (mcGo c cd ly lmd run acc txns) →
    (mcGo c cd ly lmd run acc txns = .error .balanceMismatch ↔
      c ≠ txns.foldl (fun rb t => rb - t.value) run) := by
  induction txns with
  | nil =>
    intro c cd ly lmd run acc hok
    simp only [mcGo, List.foldl]
    by_cases hc : c = run
    · simp [hc]
    · simp [hc]
  | cons t ts ih =>
    intro c cd ly lmd run acc hok
    cases hd : mcResolveDate cd t.d t.desc with
    | none =>
      have hgo : mcGo c cd ly lmd run acc (t :: ts) = .error .cellType := by
        simp [mcGo, hd]
      rw [hgo] at hok
      rcases hok with hbm | ⟨a, ha⟩
      · exact absurd (Except.error.inj hbm) (by simp)
      · exact Except.noConfusion ha
    | some md =>
      cases lmd with
      | none =>
        cases hdt : datePhaseV (if mdLt md md then ly + 1 else ly) md.1 md.2 with
        | error e =>
          have hgo : mcGo c cd ly none run acc (t :: ts) = .error e := by
            simp [mcGo, hd, hdt]
          rw [hgo] at hok
          rcases hok with hbm | ⟨a, ha⟩
          · obtain rfl := Except.error.inj hbm
            exact absurd hdt (datePhaseV_not_bm _ _ _)
          · exact Except.noConfusion ha
        | ok dt =>
          have hgo : mcGo c cd ly none run acc (t :: ts) =
              mcGo c cd (if mdLt md md then ly + 1 else ly) (some md)
                (run - t.value)
                (acc ++ [(dt, t.desc, -t.value, run - t.value)]) ts := by
            simp [mcGo, hd, hdt]
          rw [hgo] at hok ⊢
          simpa using ih c cd _ (some md) (run - t.value) _ hok
      | some q =>
        cases hdt : datePhaseV (if mdLt md q then ly + 1 else ly) md.1 md.2 with
        | error e =>
          have hgo : mcGo c cd ly (some q) run acc (t :: ts) = .error e := by
            simp [mcGo, hd, hdt]
          rw [hgo] at hok
          rcases hok with hbm | ⟨a, ha⟩
          · obtain rfl := Except.error.inj hbm
            exact absurd hdt (datePhaseV_not_bm _ _ _)
          · exact Except.noConfusion ha
        | ok dt =>
          have hgo : mcGo c cd ly (some q) run acc (t :: ts) =
              mcGo c cd (if mdLt md q then ly + 1 else ly) (some md)
                (run - t.value)
                (acc ++ [(dt, t.desc, -t.value, run - t.value)]) ts := by
            simp [mcGo, hd, hdt]
          rw [hgo] at hok ⊢
          simpa using ih c cd _ (some md) (run - t.value) _ hok

/-- C1 counterexample: a document whose closing record is followed by a
further transaction validates successfully (no BalanceMismatch) even though
the final running balance (105) differs from the document's declared
closing balance (100) — the closing check happens at the closing record,
not after the final record. -/
theorem c1_counterexample :
    acctValidate txnsPostClose = .ok resPostClose ∧
    acctValidate txnsPostClose ≠ .error .balanceMismatch ∧
    acctSpecFinalRun txnsPostClose = some 105 ∧
    acctDeclaredClosing txnsPostClose = some (some 100) := by
  refine ⟨by with_unfolding_all decide, by with_unfolding_all decide,
    by with_unfolding_all decide, by with_unfolding_all decide⟩

/-- C1 (amended): restricted to documents whose validation does not fail
with a different error kind first, the validator fails with BalanceMismatch
iff — account-style — the reference running balance (seeded/reseeded at an
opening record from its extracted balance, updated by adding each signed
amount in order) ever differs from a record's extracted balance, or at a
closing-marker record the extracted balance (possibly absent) differs from
the running balance, or no closing-marker record exists; — card-style —
the declared closing balance differs from the final reference running
balance.  The account-style closing check happens at the closing record,
not after the final record (see the counterexample). -/
theorem c1_balance_mismatch_iff :
    (∀ txns, okOrBM (acctValidate txns) →
        (acctValidate txns = .error .balanceMismatch ↔
          acctSpecMismatch txns = true)) ∧
    (∀ txns opening closing oy cd,
        okOrBM (mcValidate txns opening closing oy cd) →
        (mcValidate txns opening closing oy cd = .error .balanceMismatch ↔
          closing ≠ mcSpecFinalRun opening txns)) :=
  ⟨fun txns h => acctGo_bm_iff txns none none false none [] h,
   fun txns opening closing oy cd h =>
     mcGo_bm_iff txns closing cd oy none opening [] h⟩

theorem c1_witness :
    okOrBM (acctValidate txnsBM) ∧
    (acctValidate txnsBM = .error .balanceMismatch ↔
      acctSpecMismatch txnsBM = true) :=
  ⟨Or.inl (by with_unfolding_all decide),
   c1_balance_mismatch_iff.1 txnsBM (Or.inl (by with_unfolding_all decide))⟩

/-! ## Year resolution (C2) -/

theorem yearStep_le (a b : PDate) (h : yearStep a b) : yearLe a b := by
  unfold yearStep at h
  unfold yearLe
  split at h <;> omega

theorem acctGo_chain (txns : List ATxn) : ∀ (ly : Option Int)
    (lmd : Option (Nat × Nat)) (found : Bool) (run : Option ℚ)
    (acc res : List DTxn),
    acctGo ly lmd found run acc txns = .ok res →
    List.Chain' yearStep (acc.map (fun x => x.1)) →
    (∀ last, (acc.map (fun x => x.1)).getLast? = some last →
       ly = some last.year ∧ lmd = some (last.month, last.day)) →
    List.Chain' yearStep (res.map (fun x => x.1)) := by
  induction txns with
  | nil =>
    intro ly lmd found run acc res h hch hinv
    simp only [acctGo] at h
    split at h
    · cases h
      exact hch
    · exact Except.noConfusion h
  | cons t ts ih =>
    intro ly lmd found run acc res h hch hinv
    cases hstep : acctStepV ly lmd found run t with
    | error e => simp [acctGo, hstep] at h
    | ok quint =>
      obtain ⟨y2, md2, found2, run2, dt⟩ := quint
      rw [show acctGo ly lmd found run acc (t :: ts) =
          acctGo (some y2) (some md2) found2 run2
            (acc ++ [(dt, t.desc, t.value, t.balance)]) ts from by
        simp [acctGo, hstep]] at h
      obtain ⟨-, -, hmd2, hdt, -, -, hopT, hopF⟩ :=
        acctStepV_ok ly lmd found run t y2 md2 found2 run2 dt hstep
      apply ih _ _ _ _ _ _ h
      · rw [List.map_append]
        refine List.Chain'.append hch (by simp) ?_
        intro x hx y hy
        simp only [List.map_cons, List.map_nil, List.head?_cons,
          Option.mem_def, Option.some.injEq] at hy
        subst hy
        obtain ⟨hlyx, hlmdx⟩ := hinv x hx
        by_cases hop : strEndsWith t.desc " OPENING BALANCE" = true
        · obtain ⟨hlyn, -⟩ := hopT hop
          rw [hlyn] at hlyx
          exact Option.noConfusion hlyx
        · obtain ⟨y1, p, hly1, hlmd1, hy2⟩ := hopF (Bool.eq_false_iff.mpr hop)
          rw [hly1] at hlyx
          rw [hlmd1] at hlmdx
          obtain rfl := Option.some.inj hlyx
          obtain rfl := Option.some.inj hlmdx
          rw [hdt]
          unfold yearStep
          simp only []
          split <;> simp_all
      · intro last hlast
        rw [List.map_append] at hlast
        simp only [List.map_cons, List.map_nil] at hlast
        rw [List.getLast?_concat] at hlast
        obtain rfl := Option.some.inj hlast
        rw [hdt, hmd2]
        exact ⟨rfl, rfl⟩

theorem mcGo_chain (txns : List MTxn) : ∀ (c : ℚ) (cd : Nat × Nat) (ly : Int)
    (lmd : Option (Nat × Nat)) (run : ℚ) (acc res : List MDTxn),
    mcGo c cd ly lmd run acc txns = .ok res →
    List.Chain' yearStep (acc.map (fun x => x.1)) →
    (∀ last, (acc.map (fun x => x.1)).getLast? = some last →
       ly = last.year ∧ lmd = some (last.month, last.day)) →
    List.Chain' yearStep (res.map (fun x => x.1)) := by
  induction txns with
  | nil =>
    intro c cd ly lmd run acc res h hch hinv
    simp only [mcGo] at h
    split at h
    · cases h
      exact hch
    · exact Except.noConfusion h
  | cons t ts ih =>
    intro c cd ly lmd run acc res h hch hinv
    cases hd : mcResolveDate cd t.d t.desc with
    | none => simp [mcGo, hd] at h
    | some md =>
      cases lmd with
      | none =>
        cases hdt : datePhaseV (if mdLt md md then ly + 1 else ly) md.1 md.2 with
        | error e => simp [mcGo, hd, hdt] at h
        | ok dt =>
          rw [show mcGo c cd ly none run acc (t :: ts) =
              mcGo c cd (if mdLt md md then ly + 1 else ly) (some md)
                (run - t.value)
                (acc ++ [(dt, t.desc, -t.value, run - t.value)]) ts from by
            simp [mcGo, hd, hdt]] at h
          have hdt2 := datePhaseV_ok _ _ _ _ hdt
          apply ih _ _ _ _ _ _ _ h
          · rw [List.map_append]
            refine List.Chain'.append hch (by simp) ?_
            intro x hx y hy
            obtain ⟨-, hlmdx⟩ := hinv x hx
            exact Option.noConfusion hlmdx
          · intro last hlast
            rw [List.map_append] at hlast
            simp only [List.map_cons, List.map_nil] at hlast
            rw [List.getLast?_concat] at hlast
            obtain rfl := Option.some.inj hlast
            rw [hdt2]
            exact ⟨rfl, rfl⟩
      | some q =>
        cases hdt : datePhaseV (if mdLt md q then ly + 1 else ly) md.1 md.2 with
        | error e => simp [mcGo, hd, hdt] at h
        | ok dt =>
          rw [show mcGo c cd ly (some q) run acc (t :: ts) =
              mcGo c cd (if mdLt md q then ly + 1 else ly) (some md)
                (run - t.value)
                (acc ++ [(dt, t.desc, -t.value, run - t.value)]) ts from by
            simp [mcGo, hd, hdt]] at h
          have hdt2 := datePhaseV_ok _ _ _ _ hdt
          apply ih _ _ _ _ _ _ _ h
          · rw [List.map_append]
            refine List.Chain'.append hch (by simp) ?_
            intro x hx y hy
            simp only [List.map_cons, List.map_nil, List.head?_cons,
              Option.mem_def, Option.some.injEq] at hy
            subst hy
            obtain ⟨hlyx, hlmdx⟩ := hinv x hx
            obtain rfl := Option.some.inj hlmdx
            rw [hdt2]
            unfold yearStep
            simp only []
            split <;> simp_all
          · intro last hlast
            rw [List.map_append] at hlast
            simp only [List.map_cons, List.map_nil] at hlast
            rw [List.getLast?_concat] at hlast
            obtain rfl := Option.some.inj hlast
            rw [hdt2]
            exact ⟨rfl, rfl⟩

/-- C2: in both validators, a successfully validated document's emitted
dates step year-wise exactly by the month/day comparison — the next date
carries the previous year plus one when its (month, day) is strictly
smaller than the previous date's under ordinary pair ordering, and the same
year otherwise — and consequently the years are monotonically non-decreasing
across the document. -/
theorem c2_year_rollover :
    (∀ txns res, acctValidate txns = .ok res →
        List.Chain' yearStep (res.map (fun x => x.1)) ∧
        List.Pairwise yearLe (res.map (fun x => x.1))) ∧
    (∀ txns opening closing oy cd res,
        mcValidate txns opening closing oy cd = .ok res →
        List.Chain' yearStep (res.map (fun x => x.1)) ∧
        List.Pairwise yearLe (res.map (fun x => x.1))) := by
  have hpair : ∀ ds : List PDate,
      List.Chain' yearStep ds → List.Pairwise yearLe ds := by
    intro ds hch
    haveI : IsTrans PDate yearLe := ⟨fun a b c h1 h2 => le_trans h1 h2⟩
    exact List.chain'_iff_pairwise.mp (hch.imp yearStep_le)
  constructor
  · intro txns res h
    have hch := acctGo_chain txns none none false none [] res h (by simp)
      (by simp)
    exact ⟨hch, hpair _ hch⟩
  · intro txns opening closing oy cd res h
    have hch := mcGo_chain txns closing cd oy none opening [] res h (by simp)
      (by simp)
    exact ⟨hch, hpair _ hch⟩

theorem c2_witness :
    acctValidate txnsGood = .ok resGood ∧
    (List.Chain' yearStep (resGood.map (fun x => x.1)) ∧
     List.Pairwise yearLe (resGood.map (fun x => x.1))) :=
  ⟨by with_unfolding_all decide,
   c2_year_rollover.1 txnsGood resGood (by with_unfolding_all decide)⟩

theorem acctGo_no_opening (txns : List ATxn) : ∀ (y : Int)
    (lmd : Option (Nat × Nat)) (found : Bool) (run : Option ℚ)
    (acc res : List DTxn),
    acctGo (some y) lmd found run acc txns = .ok res →
    ∀ t ∈ txns, strEndsWith t.desc " OPENING BALANCE" = false := by
  induction txns with
  | nil =>
    intro y lmd found run acc res h t ht
    cases ht
  | cons t ts ih =>
    intro y lmd found run acc res h t2 ht2
    cases hstep : acctStepV (some y) lmd found run t with
    | error e => simp [acctGo, hstep] at h
    | ok quint =>
      obtain ⟨y2, md2, found2, run2, dt⟩ := quint
      rw [show acctGo (some y) lmd found run acc (t :: ts) =
          acctGo (some y2) (some md2) found2 run2
            (acc ++ [(dt, t.desc, t.value, t.balance)]) ts from by
        simp [acctGo, hstep]] at h
      obtain ⟨-, -, -, -, -, -, hopT, -⟩ :=
        acctStepV_ok (some y) lmd found run t y2 md2 found2 run2 dt hstep
      rcases List.mem_cons.mp ht2 with rfl | hmem
      · by_cases hop : strEndsWith t2.desc " OPENING BALANCE" = true
        · obtain ⟨hlyn, -⟩ := hopT hop
          exact Option.noConfusion hlyn
        · exact Bool.eq_false_iff.mpr hop
      · exact ih y2 (some md2) found2 run2 _ res h t2 hmem

/-- C8: a successfully validated account-style document starts with an
opening pseudo-record — its description ends in " OPENING BALANCE", it
carries no amount, and its description prefix parses as the opening year —
and no later record is an opening record.  Contrapositively, an ordinary
transaction before the opening record, or a second opening record after it,
makes validation fail. -/
theorem c8_opening_record : ∀ txns res, acctValidate txns = .ok res →
    (txns.head?.elim False fun t =>
       strEndsWith t.desc " OPENING BALANCE" = true ∧ t.value = none ∧
       (chToInt? (strDropRight t.desc 16).data).isSome = true) ∧
    (∀ t ∈ txns.tail, strEndsWith t.desc " OPENING BALANCE" = false) := by
  intro txns res h
  cases txns with
  | nil => simp [acctValidate, acctGo] at h
  | cons t ts =>
    rw [acctValidate] at h
    cases hstep : acctStepV none none false none t with
    | error e => simp [acctGo, hstep] at h
    | ok quint =>
      obtain ⟨y2, md2, found2, run2, dt⟩ := quint
      rw [show acctGo none none false none [] (t :: ts) =
          acctGo (some y2) (some md2) found2 run2
            ([] ++ [(dt, t.desc, t.value, t.balance)]) ts from by
        simp [acctGo, hstep]] at h
      obtain ⟨-, -, -, -, -, -, hopT, hopF⟩ :=
        acctStepV_ok none none false none t y2 md2 found2 run2 dt hstep
      constructor
      · by_cases hop : strEndsWith t.desc " OPENING BALANCE" = true
        · exact ⟨hop, (hopT hop).2.1, (hopT hop).2.2⟩
        · obtain ⟨y1, p, hly1, -⟩ := hopF (Bool.eq_false_iff.mpr hop)
          exact Option.noConfusion hly1
      · exact acctGo_no_opening ts y2 (some md2) found2 run2 _ res h

theorem c8_witness :
    acctValidate txnsGood = .ok resGood ∧
    ((txnsGood.head?.elim False fun t =>
        strEndsWith t.desc " OPENING BALANCE" = true ∧ t.value = none ∧
        (chToInt? (strDropRight t.desc 16).data).isSome = true) ∧
     (∀ t ∈ txnsGood.tail, strEndsWith t.desc " OPENING BALANCE" = false)) :=
  ⟨by with_unfolding_all decide,
   c8_opening_record txnsGood resGood (by with_unfolding_all decide)⟩
